import Mathlib

/-!
Shallow embedding of `pkg/sources/chunker.go` (trufflehog).

The Go file has two parts:

* a configuration builder (`applyOptions`, options `WithChunkSize` /
  `WithPeekSize`);
* a chunk producer (`readInChunks`) that reads a byte stream through a
  `bufio.Reader`, emitting overlapping chunks on a channel.

Modelling conventions:

* Bytes are `Nat`; a byte source is a finite list of bytes (`data`)
  followed by an epilogue: `tailErr = none` means the stream ends with a
  clean `io.EOF`, `tailErr = some code` means reads past the data fail
  with the opaque non-EOF error `code`.  The source delivers its bytes
  first and reports the epilogue on subsequent reads (the canonical Go
  reader convention; `io.ReadFull` and `bufio` normalise the other
  convention to the same observable behaviour).
* `io.ReadFull(chunkReader, buf)` with `len(buf) = chunkSize` at logical
  position `pos` obtains `n = min chunkSize (remaining)` bytes and
  reports `nil` when `n = chunkSize`, `io.EOF` when `n = 0` on a clean
  stream, `io.ErrUnexpectedEOF` on a clean partial read, and the
  epilogue error otherwise (`readFullErr`).
* `bufio.Reader.Peek(k)` returns the next `min k (min bufSize remaining)`
  bytes without advancing the logical position, where `bufSize` is the
  lookahead-buffer size: `bufio.NewReaderSize(reader, chunkSize)` gives
  `bufSize = max chunkSize 16` (bufio enforces a 16-byte minimum).
  The peek error is discarded by the code and is not modelled.
* A Go slice is modelled as its contents plus its capacity
  (`ChunkResult.data`, `ChunkResult.cap`); the nil slice of an
  unassembled result has capacity 0.
* The `select` on `ctx.Done()` versus the channel send is resolved by an
  oracle `cancel : Nat → Bool`: `cancel i = true` means the select
  performed immediately before delivering at iteration `i` observes
  cancellation.  A run that is never cancelled uses `fun i => false`.
* The goroutine loop is written with a fuel parameter for structural
  recursion; `data.length + 1` fuel always suffices because every
  continuing iteration consumes exactly `chunkSize ≥ 1` bytes.
* The `defer close(chunkResultChan)` is the `closed` field of the run
  output: every exit path closes the channel, so it is `true` on every
  path.  The `ctx.Logger().Error(err, ...)` sink is the `log` field.
-/

namespace Chunker

/-- Go constant `ChunkSize = 10 * 1024`. -/
def ChunkSize : Int := 10 * 1024

/-- Go constant `PeekSize = 3 * 1024`. -/
def PeekSize : Int := 3 * 1024

/-- Go constant `TotalChunkSize = ChunkSize + PeekSize`. -/
def TotalChunkSize : Int := ChunkSize + PeekSize

/-- Go default `int(float64(ChunkSize+PeekSize) * smallChunkThresholdRatio)`
with ratio `0.5`: `13312 * 0.5 = 6656.0` is exact in binary floating point,
so the truncation yields exactly `6656`. -/
def defaultSmallChunkThreshold : Int := 6656

/-- Go struct `chunkReaderConfig`. -/
structure chunkReaderConfig where
  chunkSize : Int
  totalSize : Int
  peekSize : Int
  smallChunkThreshold : Int
deriving DecidableEq, Repr

/-- Public configuration options of the builder: `WithChunkSize` and
`WithPeekSize`, each overwriting one field. -/
inductive ConfigOption where
  | withChunkSize (size : Int)
  | withPeekSize (size : Int)
deriving DecidableEq, Repr

/-- Application of one option function to the mutable config. -/
def applyOption (c : chunkReaderConfig) : ConfigOption → chunkReaderConfig
  | .withChunkSize size => { c with chunkSize := size }
  | .withPeekSize size => { c with peekSize := size }

/-- Go `applyOptions`: start from defaults (the threshold is computed from
the constant defaults at this point, `totalSize` starts as the zero value),
fold the option functions, then set `totalSize` from the final sizes. -/
def applyOptions (opts : List ConfigOption) : chunkReaderConfig :=
  let config : chunkReaderConfig :=
    { chunkSize := ChunkSize
      totalSize := 0
      peekSize := PeekSize
      smallChunkThreshold := defaultSmallChunkThreshold }
  let config := opts.foldl applyOption config
  { config with totalSize := config.chunkSize + config.peekSize }

/-- Error value a read can report: clean end of stream (`io.EOF`), the
partial-read end marker (`io.ErrUnexpectedEOF`), or any other failure
carrying an opaque code. -/
inductive ReadErr where
  | eof
  | unexpectedEOF
  | other (code : Nat)
deriving DecidableEq, Repr

/-- Go `isErrAndNotEOF`: `nil`, `io.EOF` and `io.ErrUnexpectedEOF` are not
reportable; everything else is. -/
def isErrAndNotEOF : Option ReadErr → Bool
  | none => false
  | some .eof => false
  | some .unexpectedEOF => false
  | some (.other _) => true

/-- Go struct `ChunkResult`: the delivered slice (contents plus capacity)
and the attached error.  The nil slice of an unassembled result is `[]`
with capacity 0. -/
structure ChunkResult where
  data : List Nat
  cap : Nat
  err : Option ReadErr
deriving DecidableEq, Repr

/-- Default `ChunkResult` used only as the out-of-range fallback of
`List.getD` in statements; the indices used are always in range. -/
def noResult : ChunkResult := ⟨[], 0, none⟩

/-- Observable outcome of one producer run: the results delivered on the
channel in order, the errors passed to the logger, the byte count obtained
by each iteration's `io.ReadFull` (core read), and whether the channel was
closed. -/
structure ProducerOut where
  results : List ChunkResult
  log : List (Option ReadErr)
  coreReads : List Nat
  closed : Bool
deriving DecidableEq, Repr

/-- Error reported by `io.ReadFull` on a chunk-sized buffer when it obtained
`n` bytes: `nil` on a full read, the epilogue error when the stream's data
ran out with a pending failure, else `io.EOF` (nothing read) or
`io.ErrUnexpectedEOF` (partial read). -/
def readFullErr (C : Nat) (tailErr : Option Nat) (n : Nat) : Option ReadErr :=
  if n = C then none
  else
    match tailErr with
    | some code => some (.other code)
    | none => if n = 0 then some .eof else some .unexpectedEOF

/-- Number of bytes `bufio.Reader.Peek(C + P - n)` returns when `rest` is
the unconsumed part of the stream and `n` bytes were just consumed: capped
by the request, by the bufio buffer size, and by the data that is left. -/
def peekLenOf (C P bufSize n restLen : Nat) : Nat :=
  min (C + P - n) (min bufSize (restLen - n))

/-- Buffer assembly of one iteration (lines 113-127 of the Go file): with
`n > 0` bytes read and the peeked bytes, either a fresh exact-size
allocation (small chunk) or the reused `totalSize`-capacity buffer with the
peek appended in place.  With `n = 0` the result keeps its nil slice. -/
def chunkAssembly (C P bufSize : Nat) (threshold : Int) (rest : List Nat) :
    List Nat × Nat :=
  if 0 < min C rest.length then
    (rest.take (min C rest.length) ++
        (rest.drop (min C rest.length)).take
          (peekLenOf C P bufSize (min C rest.length) rest.length),
      if (min C rest.length : Int) +
          (peekLenOf C P bufSize (min C rest.length) rest.length : Int) <
          threshold then
        min C rest.length + peekLenOf C P bufSize (min C rest.length) rest.length
      else C + P)
  else ([], 0)

/-- Go `readInChunks` goroutine loop.  One fuel unit per iteration
(structural recursion; the Go loop terminates because every continuing
iteration performed a full read of `C ≥ 1` bytes).  `iter` numbers the
iterations so that the cancellation oracle can be consulted at the select
preceding each delivery. -/
def readInChunksLoop (C P bufSize : Nat) (threshold : Int) (tailErr : Option Nat)
    (cancel : Nat → Bool) : Nat → Nat → List Nat → ProducerOut
  | 0, _, _ => ⟨[], [], [], true⟩
  | fuel + 1, iter, rest =>
    if isErrAndNotEOF (readFullErr C tailErr (min C rest.length)) then
      if cancel iter then
        ⟨[], [readFullErr C tailErr (min C rest.length)], [min C rest.length], true⟩
      else
        ⟨[⟨(chunkAssembly C P bufSize threshold rest).1,
            (chunkAssembly C P bufSize threshold rest).2,
            readFullErr C tailErr (min C rest.length)⟩],
          [readFullErr C tailErr (min C rest.length)], [min C rest.length], true⟩
    else if 0 < min C rest.length then
      if cancel iter then ⟨[], [], [min C rest.length], true⟩
      else if readFullErr C tailErr (min C rest.length) = none then
        ⟨⟨(chunkAssembly C P bufSize threshold rest).1,
            (chunkAssembly C P bufSize threshold rest).2, none⟩ ::
            (readInChunksLoop C P bufSize threshold tailErr cancel fuel (iter + 1)
              (rest.drop (min C rest.length))).results,
          (readInChunksLoop C P bufSize threshold tailErr cancel fuel (iter + 1)
            (rest.drop (min C rest.length))).log,
          min C rest.length ::
            (readInChunksLoop C P bufSize threshold tailErr cancel fuel (iter + 1)
              (rest.drop (min C rest.length))).coreReads, true⟩
      else
        ⟨[⟨(chunkAssembly C P bufSize threshold rest).1,
            (chunkAssembly C P bufSize threshold rest).2, none⟩],
          [], [min C rest.length], true⟩
    else ⟨[], [], [min C rest.length], true⟩

/-- Go `readInChunks` observed over a whole source: the bufio buffer size is
`max C 16` and `data.length + 1` fuel covers every iteration. -/
def readInChunks (C P : Nat) (threshold : Int) (data : List Nat)
    (tailErr : Option Nat) (cancel : Nat → Bool) : ProducerOut :=
  readInChunksLoop C P (max C 16) threshold tailErr cancel (data.length + 1) 0 data

/-- Round-trip concatenation of a result list: the first `C` bytes of every
non-final chunk, then the full content of the final chunk. -/
def roundTripConcat (C : Nat) : List ChunkResult → List Nat
  | [] => []
  | [r] => r.data
  | r :: rs => r.data.take C ++ roundTripConcat C rs

end Chunker

namespace Chunker

/- ### Basic facts about the per-iteration pieces -/

theorem isErrAndNotEOF_ne_none {e : Option ReadErr} (h : isErrAndNotEOF e = true) :
    e ≠ none := by
  cases e with
  | none => simp [isErrAndNotEOF] at h
  | some v => simp

theorem peekLenOf_le (C P bufSize n restLen : Nat) :
    peekLenOf C P bufSize n restLen ≤ restLen - n := by
  unfold peekLenOf
  omega

theorem chunkAssembly_fst (C P bufSize : Nat) (threshold : Int) (rest : List Nat)
    (h : 0 < min C rest.length) :
    (chunkAssembly C P bufSize threshold rest).1 =
      rest.take (min C rest.length) ++
        (rest.drop (min C rest.length)).take
          (peekLenOf C P bufSize (min C rest.length) rest.length) := by
  rw [chunkAssembly, if_pos h]

theorem chunkAssembly_length (C P bufSize : Nat) (threshold : Int) (rest : List Nat)
    (h : 0 < min C rest.length) :
    (chunkAssembly C P bufSize threshold rest).1.length =
      min C rest.length + peekLenOf C P bufSize (min C rest.length) rest.length := by
  rw [chunkAssembly_fst C P bufSize threshold rest h, List.length_append,
    List.length_take, List.length_take, List.length_drop]
  have := peekLenOf_le C P bufSize (min C rest.length) rest.length
  omega

theorem chunkAssembly_fst_ne_nil (C P bufSize : Nat) (threshold : Int) (rest : List Nat)
    (h : 0 < min C rest.length) :
    (chunkAssembly C P bufSize threshold rest).1 ≠ [] := by
  intro hnil
  have := chunkAssembly_length C P bufSize threshold rest h
  rw [hnil] at this
  simp at this
  omega

theorem chunkAssembly_snd_of_small (C P bufSize : Nat) (threshold : Int)
    (rest : List Nat) (h : 0 < min C rest.length)
    (hsmall : ((chunkAssembly C P bufSize threshold rest).1.length : Int) < threshold) :
    (chunkAssembly C P bufSize threshold rest).2 =
      (chunkAssembly C P bufSize threshold rest).1.length := by
  rw [chunkAssembly_length C P bufSize threshold rest h] at hsmall ⊢
  rw [chunkAssembly, if_pos h]
  push_cast at hsmall
  rw [if_pos hsmall]

/- ### C3: the builder's derived fields -/

theorem foldl_applyOption_smallChunkThreshold (opts : List ConfigOption) :
    ∀ c : chunkReaderConfig,
      (opts.foldl applyOption c).smallChunkThreshold = c.smallChunkThreshold := by
  induction opts with
  | nil => intro c; rfl
  | cons o opts ih =>
    intro c
    rw [List.foldl_cons, ih]
    cases o <;> rfl

/-- C3 counterexample: with the option `WithChunkSize 100` the final
configuration has `totalSize = 100 + 3072 = 3172`, whose half is `1586`
(exact also as `int(float64(3172) * 0.5)`), yet `smallChunkThreshold`
remains the default `6656`: the threshold is not recomputed from the final
sizes. -/
theorem C3_counterexample :
    ¬ ((applyOptions [ConfigOption.withChunkSize 100]).smallChunkThreshold =
        (applyOptions [ConfigOption.withChunkSize 100]).totalSize / 2) := by
  decide

/-- C3 (amended): after all options are applied, `totalSize` is recomputed
as the sum of the final `chunkSize` and `peekSize`, but
`smallChunkThreshold` always keeps the value derived from the default
sizes (`int(float64(ChunkSize+PeekSize) * 0.5) = 6656`), regardless of the
options. -/
theorem C3_builder_derived_fields (opts : List ConfigOption) :
    (applyOptions opts).totalSize =
        (applyOptions opts).chunkSize + (applyOptions opts).peekSize ∧
      (applyOptions opts).smallChunkThreshold = defaultSmallChunkThreshold := by
  refine ⟨rfl, ?_⟩
  show (opts.foldl applyOption _).smallChunkThreshold = _
  rw [foldl_applyOption_smallChunkThreshold]

/- ### C5: every delivered result has data or an error -/

theorem loop_mem_results_data_or_err (C P bufSize : Nat) (threshold : Int)
    (tailErr : Option Nat) (cancel : Nat → Bool) :
    ∀ fuel iter rest r,
      r ∈ (readInChunksLoop C P bufSize threshold tailErr cancel fuel iter rest).results →
      r.data ≠ [] ∨ r.err ≠ none := by
  intro fuel
  induction fuel with
  | zero =>
    intro iter rest r hr
    simp [readInChunksLoop] at hr
  | succ fuel ih =>
    intro iter rest r hr
    rw [readInChunksLoop] at hr
    split_ifs at hr with h1 h2 h3 h4 h5
    · simp at hr
    · simp at hr
      right
      rw [hr]
      exact isErrAndNotEOF_ne_none h1
    · simp at hr
    · simp at hr
      rcases hr with hr | hr
      · left
        rw [hr]
        exact chunkAssembly_fst_ne_nil C P bufSize threshold rest h3
      · exact ih _ _ r hr
    · simp at hr
      left
      rw [hr]
      exact chunkAssembly_fst_ne_nil C P bufSize threshold rest h3
    · simp at hr

/-- C5: every result delivered on the output channel has a non-empty byte
buffer or a non-nil error; an empty buffer with a nil error is never
emitted. -/
theorem C5_data_or_error (C P : Nat) (threshold : Int) (data : List Nat)
    (tailErr : Option Nat) (cancel : Nat → Bool) (r : ChunkResult)
    (hr : r ∈ (readInChunks C P threshold data tailErr cancel).results) :
    r.data ≠ [] ∨ r.err ≠ none :=
  loop_mem_results_data_or_err C P (max C 16) threshold tailErr cancel
    (data.length + 1) 0 data r hr

/-- C5 witness: in the run over the three-byte source `[1, 2, 3]` with
chunk size 2, the first delivered chunk is `[1, 2, 3]` with no error, and
the theorem yields the disjunction for it. -/
theorem C5_witness :
    (⟨[1, 2, 3], 3, none⟩ : ChunkResult) ∈
        (readInChunks 2 1 6656 [1, 2, 3] none (fun _ => false)).results ∧
      ((⟨[1, 2, 3], 3, none⟩ : ChunkResult).data ≠ [] ∨
        (⟨[1, 2, 3], 3, none⟩ : ChunkResult).err ≠ none) :=
  ⟨by decide, C5_data_or_error 2 1 6656 [1, 2, 3] none (fun _ => false) _ (by decide)⟩

/- ### C9: small chunks are delivered in exact-size buffers -/

theorem loop_mem_results_cap (C P bufSize : Nat) (threshold : Int)
    (tailErr : Option Nat) (cancel : Nat → Bool) :
    ∀ fuel iter rest r,
      r ∈ (readInChunksLoop C P bufSize threshold tailErr cancel fuel iter rest).results →
      (r.data.length : Int) < threshold → r.cap = r.data.length := by
  intro fuel
  induction fuel with
  | zero =>
    intro iter rest r hr
    simp [readInChunksLoop] at hr
  | succ fuel ih =>
    intro iter rest r hr hsmall
    rw [readInChunksLoop] at hr
    split_ifs at hr with h1 h2 h3 h4 h5
    · simp at hr
    · simp at hr
      subst hr
      by_cases hn : 0 < min C rest.length
      · exact chunkAssembly_snd_of_small C P bufSize threshold rest hn hsmall
      · rw [chunkAssembly, if_neg hn]
        rfl
    · simp at hr
    · simp at hr
      rcases hr with hr | hr
      · subst hr
        exact chunkAssembly_snd_of_small C P bufSize threshold rest h3 hsmall
      · exact ih _ _ r hr hsmall
    · simp at hr
      subst hr
      exact chunkAssembly_snd_of_small C P bufSize threshold rest h3 hsmall
    · simp at hr

/-- C9: every emitted chunk whose delivered size (core bytes plus previewed
bytes) is strictly below the small-chunk threshold is delivered in a buffer
whose capacity equals its length exactly. -/
theorem C9_small_chunk_exact_capacity (C P : Nat) (threshold : Int) (data : List Nat)
    (tailErr : Option Nat) (cancel : Nat → Bool) (r : ChunkResult)
    (hr : r ∈ (readInChunks C P threshold data tailErr cancel).results)
    (hsmall : (r.data.length : Int) < threshold) : r.cap = r.data.length :=
  loop_mem_results_cap C P (max C 16) threshold tailErr cancel
    (data.length + 1) 0 data r hr hsmall

/-- C9 witness: in the spec's worked example (chunk size 10, peek size 3,
26-byte source, threshold 6656) the final chunk `[20..26)` has size 6 below
the threshold and its capacity is exactly 6. -/
theorem C9_witness :
    (⟨[20, 21, 22, 23, 24, 25], 6, none⟩ : ChunkResult) ∈
        (readInChunks 10 3 6656 (List.range 26) none (fun _ => false)).results ∧
      (((⟨[20, 21, 22, 23, 24, 25], 6, none⟩ : ChunkResult).data.length : Int) < 6656) ∧
      (⟨[20, 21, 22, 23, 24, 25], 6, none⟩ : ChunkResult).cap =
        (⟨[20, 21, 22, 23, 24, 25], 6, none⟩ : ChunkResult).data.length :=
  ⟨by decide, by decide,
    C9_small_chunk_exact_capacity 10 3 6656 (List.range 26) none (fun _ => false) _
      (by decide) (by decide)⟩

/- ### C8: cancellation observed at the pre-enqueue checkpoint -/

theorem loop_cancel_bound (C P bufSize : Nat) (threshold : Int)
    (tailErr : Option Nat) (cancel : Nat → Bool) :
    ∀ fuel iter i rest, cancel (iter + i) = true →
      (readInChunksLoop C P bufSize threshold tailErr cancel fuel iter rest).results.length ≤ i := by
  intro fuel
  induction fuel with
  | zero =>
    intro iter i rest _
    simp [readInChunksLoop]
  | succ fuel ih =>
    intro iter i rest hcancel
    rw [readInChunksLoop]
    split_ifs with h1 h2 h3 h4 h5
    · simp
    · cases i with
      | zero => simp at hcancel; simp [h2] at hcancel
      | succ j => simp
    · simp
    · cases i with
      | zero => simp at hcancel; simp [h4] at hcancel
      | succ j =>
        simp only [List.length_cons]
        have := ih (iter + 1) j (rest.drop (min C rest.length))
          (by rw [show iter + 1 + j = iter + (j + 1) by omega]; exact hcancel)
        omega
    · cases i with
      | zero => simp at hcancel; simp [h4] at hcancel
      | succ j => simp
    · simp

/-- C8: cancellation in the model.  `cancel i = true` means the select
performed immediately before the i-th delivery observes `ctx.Done()` (the
oracle resolves the nondeterministic Go select).  If cancellation is
observed at the very first pre-enqueue checkpoint, zero results are
delivered; in general once cancellation is observed at checkpoint `i` the
pending result is not delivered, so at most `i` results ever appear; and
the channel is closed in every case. -/
theorem C8_cancellation (C P : Nat) (threshold : Int) (data : List Nat)
    (tailErr : Option Nat) (cancel : Nat → Bool) :
    (cancel 0 = true → (readInChunks C P threshold data tailErr cancel).results = []) ∧
      (∀ i, cancel i = true →
        (readInChunks C P threshold data tailErr cancel).results.length ≤ i) ∧
      (readInChunks C P threshold data tailErr cancel).closed = true := by
  refine ⟨?_, ?_, ?_⟩
  · intro h0
    have := loop_cancel_bound C P (max C 16) threshold tailErr cancel
      (data.length + 1) 0 0 data h0
    exact List.length_eq_zero.mp (Nat.le_zero.mp this)
  · intro i hi
    exact loop_cancel_bound C P (max C 16) threshold tailErr cancel
      (data.length + 1) 0 i data (by rw [Nat.zero_add]; exact hi)
  · rw [readInChunks, readInChunksLoop]
    split_ifs <;> rfl

/- ### C1: round-trip law -/

theorem readFullErr_none_not_reportable (C n : Nat) :
    isErrAndNotEOF (readFullErr C none n) = false := by
  unfold readFullErr
  split_ifs <;> rfl

theorem readFullErr_none_eq_none_iff (C n : Nat) :
    readFullErr C none n = none ↔ n = C := by
  unfold readFullErr
  split_ifs with h h2 <;> simp_all

theorem loop_roundTrip (C P bufSize : Nat) (threshold : Int) (cancel : Nat → Bool)
    (hC : 0 < C) (hcancel : ∀ i, cancel i = false) :
    ∀ fuel iter rest, rest.length < fuel →
      roundTripConcat C
        (readInChunksLoop C P bufSize threshold none cancel fuel iter rest).results =
        rest := by
  intro fuel
  induction fuel with
  | zero => intro iter rest h; omega
  | succ fuel ih =>
    intro iter rest hfuel
    rw [readInChunksLoop]
    split_ifs with h1 h2 h3 h4 h5
    · rw [readFullErr_none_not_reportable] at h1; cases h1
    · rw [readFullErr_none_not_reportable] at h1; cases h1
    · rw [hcancel iter] at h4; cases h4
    · -- full read: the emitted chunk is followed by the rest of the run
      have hfull : min C rest.length = C := (readFullErr_none_eq_none_iff C _).mp h5
      have hlen : C ≤ rest.length := by omega
      have hrec := ih (iter + 1) (rest.drop (min C rest.length))
        (by rw [List.length_drop]; omega)
      cases hres : (readInChunksLoop C P bufSize threshold none cancel fuel (iter + 1)
          (rest.drop (min C rest.length))).results with
      | nil =>
        rw [hres] at hrec
        simp only [roundTripConcat] at hrec
        have hdrop : rest.drop (min C rest.length) = [] := hrec.symm
        have hlen2 : rest.length ≤ C := by
          rw [List.drop_eq_nil_iff, hfull] at hdrop
          exact hdrop
        simp only [hres, roundTripConcat]
        rw [chunkAssembly_fst C P bufSize threshold rest h3, hdrop, List.take_nil,
          List.append_nil, hfull]
        exact List.take_of_length_le hlen2
      | cons r l =>
        rw [hres] at hrec
        simp only [hres, roundTripConcat]
        rw [chunkAssembly_fst C P bufSize threshold rest h3, hrec, hfull]
        rw [List.take_append_of_le_length
          (by rw [List.length_take]; omega : C ≤ (rest.take C).length)]
        rw [List.take_take]
        simp [List.take_append_drop]
    · -- partial final read: a single chunk holding the whole remainder
      have hmin : min C rest.length = rest.length := by
        rw [readFullErr_none_eq_none_iff] at h5
        omega
      simp only [roundTripConcat]
      rw [chunkAssembly_fst C P bufSize threshold rest h3, hmin, List.take_length,
        List.drop_length, List.take_nil, List.append_nil]
    · -- nothing left to read: clean EOF, no emission
      have : rest.length = 0 := by omega
      rw [List.length_eq_zero.mp this]
      rfl

/-- C1: round-trip law.  For every finite byte source read to completion
without I/O failure, concatenating the first `C` bytes of each non-final
emitted chunk plus the full content of the final chunk reproduces the
source exactly. -/
theorem C1_round_trip (C P : Nat) (threshold : Int) (data : List Nat) (hC : 0 < C) :
    roundTripConcat C
      (readInChunks C P threshold data none (fun _ => false)).results = data :=
  loop_roundTrip C P (max C 16) threshold (fun _ => false) hC (fun _ => rfl)
    (data.length + 1) 0 data (Nat.lt_succ_self _)

/-- C1 witness: the spec's worked example, chunk size 10 and peek size 3
over the 26-byte source `0..25`. -/
theorem C1_witness :
    0 < 10 ∧
      roundTripConcat 10
        (readInChunks 10 3 6656 (List.range 26) none (fun _ => false)).results =
        List.range 26 :=
  ⟨by decide, C1_round_trip 10 3 6656 (List.range 26) (by decide)⟩

/- ### C4: chunk count and core-read sizes of a clean complete run -/

theorem getD_replicate_append (k m i x : Nat) (h : i < k) :
    (List.replicate k x ++ [m]).getD i 0 = x := by
  induction k generalizing i with
  | zero => omega
  | succ k ih =>
    cases i with
    | zero => rfl
    | succ j =>
      rw [List.replicate_succ, List.cons_append, List.getD_cons_succ]
      exact ih j (by omega)

theorem loop_clean_count (C P bufSize : Nat) (threshold : Int) (cancel : Nat → Bool)
    (hC : 0 < C) (hcancel : ∀ i, cancel i = false) :
    ∀ fuel iter rest, rest.length < fuel →
      (readInChunksLoop C P bufSize threshold none cancel fuel iter rest).results.length =
          (rest.length + C - 1) / C ∧
        (readInChunksLoop C P bufSize threshold none cancel fuel iter rest).coreReads =
          List.replicate (rest.length / C) C ++ [rest.length % C] := by
  intro fuel
  induction fuel with
  | zero => intro iter rest h; omega
  | succ fuel ih =>
    intro iter rest hfuel
    rw [readInChunksLoop]
    split_ifs with h1 h2 h3 h4 h5
    · rw [readFullErr_none_not_reportable] at h1; cases h1
    · rw [readFullErr_none_not_reportable] at h1; cases h1
    · rw [hcancel iter] at h4; cases h4
    · -- full read, loop continues
      have hfull : min C rest.length = C := (readFullErr_none_eq_none_iff C _).mp h5
      have hlen : C ≤ rest.length := by omega
      have hrec := ih (iter + 1) (rest.drop C)
        (by rw [List.length_drop]; omega)
      rw [List.length_drop] at hrec
      have hdiv : rest.length / C = (rest.length - C) / C + 1 := by
        conv_lhs => rw [show rest.length = rest.length - C + C by omega]
        rw [Nat.add_div_right _ hC]
      have hmod : rest.length % C = (rest.length - C) % C := by
        conv_lhs => rw [show rest.length = rest.length - C + C by omega]
        rw [Nat.add_mod_right]
      rw [hfull]
      constructor
      · simp only [List.length_cons, hrec.1]
        have hnum : rest.length + C - 1 = (rest.length - C + C - 1) + C := by omega
        rw [hnum, Nat.add_div_right _ hC]
      · simp only [hrec.2, hdiv, hmod, List.replicate_succ, List.cons_append]
    · -- partial final read
      have hne : min C rest.length ≠ C := by
        intro heq
        exact h5 ((readFullErr_none_eq_none_iff C _).mpr heq)
      have hmin : min C rest.length = rest.length := by omega
      have hlt : rest.length < C := by omega
      have hpos : 0 < rest.length := by omega
      constructor
      · simp only [List.length_cons, List.length_nil]
        have hone : (rest.length + C - 1) / C = 1 :=
          Nat.div_eq_of_lt_le (by omega) (by omega)
        rw [hone]
      · rw [hmin, Nat.div_eq_of_lt hlt, Nat.mod_eq_of_lt hlt]
        rfl
    · -- empty source: nothing emitted, one zero-length core read
      have h0 : rest.length = 0 := by omega
      constructor
      · simp only [List.length_nil, h0]
        have : (0 + C - 1) / C = 0 := Nat.div_eq_of_lt (by omega)
        rw [this]
      · rw [h0, Nat.zero_div, Nat.zero_mod]
        simp [h0]

/-- C4: for a clean complete run over a source of `N` bytes with `N > C + P`
and `0 < C`, exactly `⌈N / C⌉ = (N + C - 1) / C` chunk results are emitted,
and every iteration's core read (`io.ReadFull`) obtains exactly `C` bytes —
advancing the source position by `C` — except the last. -/
theorem C4_chunk_count (C P : Nat) (threshold : Int) (data : List Nat)
    (hC : 0 < C) (hN : C + P < data.length) :
    (readInChunks C P threshold data none (fun _ => false)).results.length =
        (data.length + C - 1) / C ∧
      ∀ i, i + 1 <
          (readInChunks C P threshold data none (fun _ => false)).coreReads.length →
        (readInChunks C P threshold data none (fun _ => false)).coreReads.getD i 0 =
          C := by
  have h := loop_clean_count C P (max C 16) threshold (fun _ => false) hC (fun _ => rfl)
    (data.length + 1) 0 data (Nat.lt_succ_self _)
  refine ⟨h.1, ?_⟩
  intro i hi
  rw [readInChunks] at hi ⊢
  rw [h.2] at hi ⊢
  rw [List.length_append, List.length_replicate, List.length_cons,
    List.length_nil] at hi
  exact getD_replicate_append _ _ _ _ (by omega)

/-- C4 witness: the spec's worked example, 26 bytes with chunk size 10 and
peek size 3, three chunks, core reads 10, 10, 6. -/
theorem C4_witness :
    0 < 10 ∧ 10 + 3 < (List.range 26).length ∧
      ((readInChunks 10 3 6656 (List.range 26) none (fun _ => false)).results.length =
          ((List.range 26).length + 10 - 1) / 10 ∧
        ∀ i, i + 1 <
            (readInChunks 10 3 6656 (List.range 26) none
              (fun _ => false)).coreReads.length →
          (readInChunks 10 3 6656 (List.range 26) none
            (fun _ => false)).coreReads.getD i 0 = 10) :=
  ⟨by decide, by decide, C4_chunk_count 10 3 6656 (List.range 26) (by decide) (by decide)⟩

/- ### Runs against a source whose epilogue is a reportable error -/

theorem readFullErr_some_eq (C code n : Nat) (h : n ≠ C) :
    readFullErr C (some code) n = some (ReadErr.other code) := by
  unfold readFullErr
  rw [if_neg h]

theorem loop_tailErr_run (C P bufSize : Nat) (threshold : Int) (cancel : Nat → Bool)
    (code : Nat) (hC : 0 < C) (hcancel : ∀ i, cancel i = false) :
    ∀ fuel iter rest, rest.length < fuel →
      (readInChunksLoop C P bufSize threshold (some code) cancel fuel iter rest).log =
          [some (ReadErr.other code)] ∧
        ∃ r,
          (readInChunksLoop C P bufSize threshold (some code) cancel fuel iter
                rest).results.getLast? = some r ∧
            r.data = rest.drop (C * (rest.length / C)) ∧
            r.err = some (ReadErr.other code) ∧
            ∀ r2 ∈ (readInChunksLoop C P bufSize threshold (some code) cancel fuel iter
                rest).results.dropLast, r2.err = none := by
  intro fuel
  induction fuel with
  | zero => intro iter rest h; omega
  | succ fuel ih =>
    intro iter rest hfuel
    rw [readInChunksLoop]
    split_ifs with h1 h2 h3 h4 h5
    · rw [hcancel iter] at h2; cases h2
    · -- the reportable error surfaces here: emit the terminal result and stop
      have hne : min C rest.length ≠ C := by
        intro heq
        rw [readFullErr, if_pos heq] at h1
        simp [isErrAndNotEOF] at h1
      have hmin : min C rest.length = rest.length := by omega
      have hlt : rest.length < C := by omega
      have hdiv : rest.length / C = 0 := Nat.div_eq_of_lt hlt
      have hdata : (chunkAssembly C P bufSize threshold rest).1 = rest := by
        by_cases hn : 0 < min C rest.length
        · rw [chunkAssembly_fst C P bufSize threshold rest hn, hmin, List.take_length,
            List.drop_length, List.take_nil, List.append_nil]
        · have h0 : rest.length = 0 := by omega
          rw [chunkAssembly, if_neg hn, List.length_eq_zero.mp h0]
      rw [readFullErr_some_eq C code _ hne]
      refine ⟨rfl,
        ⟨⟨(chunkAssembly C P bufSize threshold rest).1,
          (chunkAssembly C P bufSize threshold rest).2,
          some (ReadErr.other code)⟩, rfl, ?_, rfl, ?_⟩⟩
      · rw [hdiv, Nat.mul_zero, List.drop_zero]
        exact hdata
      · intro r2 hr2
        simp at hr2
    · rw [hcancel iter] at h4; cases h4
    · -- non-reportable and full: the error has not surfaced yet, recurse
      have hfull : min C rest.length = C := by
        by_contra hne
        rw [readFullErr_some_eq C code _ hne] at h1
        simp [isErrAndNotEOF] at h1
      have hlen : C ≤ rest.length := by omega
      have hrec := ih (iter + 1) (rest.drop C)
        (by rw [List.length_drop]; omega)
      rw [List.length_drop] at hrec
      obtain ⟨hlog, r, hlast, hdata, herr, hprev⟩ := hrec
      rw [hfull]
      cases hres : (readInChunksLoop C P bufSize threshold (some code) cancel fuel
          (iter + 1) (rest.drop C)).results with
      | nil =>
        rw [hres] at hlast
        cases hlast
      | cons a l =>
        rw [hres] at hlast hprev
        refine ⟨hlog, ⟨r, ?_, ?_, herr, ?_⟩⟩
        · simp only [hres, List.getLast?_cons_cons]
          exact hlast
        · have hstep : C + C * ((rest.length - C) / C) = C * (rest.length / C) := by
            have hdiv2 : rest.length / C = (rest.length - C) / C + 1 := by
              conv_lhs => rw [show rest.length = rest.length - C + C by omega]
              rw [Nat.add_div_right _ hC]
            rw [hdiv2, Nat.mul_add, Nat.mul_one, Nat.add_comm]
          rw [hdata, List.drop_drop, hstep]
        · intro r2 hr2
          simp only [hres, List.dropLast_cons₂, List.mem_cons] at hr2
          rcases hr2 with hr2 | hr2
          · rw [hr2]
          · exact hprev r2 hr2
    · -- impossible: with an error epilogue a non-full read is reportable
      exfalso
      apply h1
      have hne : min C rest.length ≠ C := by
        intro heq
        exact h5 (by rw [readFullErr, if_pos heq])
      rw [readFullErr_some_eq C code _ hne]
      rfl
    · -- impossible: a zero-byte read against the error epilogue is reportable
      exfalso
      apply h1
      have hne : min C rest.length ≠ C := by omega
      rw [readFullErr_some_eq C code _ hne]
      rfl

theorem loop_mem_results_err_reportable (C P bufSize : Nat) (threshold : Int)
    (tailErr : Option Nat) (cancel : Nat → Bool) :
    ∀ fuel iter rest r,
      r ∈ (readInChunksLoop C P bufSize threshold tailErr cancel fuel iter rest).results →
      r.err = none ∨ isErrAndNotEOF r.err = true := by
  intro fuel
  induction fuel with
  | zero =>
    intro iter rest r hr
    simp [readInChunksLoop] at hr
  | succ fuel ih =>
    intro iter rest r hr
    rw [readInChunksLoop] at hr
    split_ifs at hr with h1 h2 h3 h4 h5
    · simp at hr
    · simp at hr
      right
      rw [hr]
      exact h1
    · simp at hr
    · simp at hr
      rcases hr with hr | hr
      · left
        rw [hr]
      · exact ih _ _ r hr
    · simp at hr
      left
      rw [hr]
    · simp at hr

/-- C6: error classification.  First, a clean end-of-stream signal is never
attached to a result: every attached error satisfies `isErrAndNotEOF` (so it
is neither `io.EOF` nor `io.ErrUnexpectedEOF`), over every source, epilogue
and cancellation oracle.  Second, in an uncancelled run over a source whose
stream fails with a reportable error, that error is passed to the injected
logging sink exactly once and is attached as the error of the final emitted
result. -/
theorem C6_error_classification (C P : Nat) (threshold : Int) (data : List Nat) :
    (∀ (tailErr : Option Nat) (cancel : Nat → Bool) r,
        r ∈ (readInChunks C P threshold data tailErr cancel).results →
          r.err = none ∨ isErrAndNotEOF r.err = true) ∧
      (∀ code : Nat, 0 < C →
        (readInChunks C P threshold data (some code) (fun _ => false)).log =
            [some (ReadErr.other code)] ∧
          ∃ r,
            (readInChunks C P threshold data (some code)
                  (fun _ => false)).results.getLast? = some r ∧
              r.err = some (ReadErr.other code)) := by
  constructor
  · intro tailErr cancel r hr
    exact loop_mem_results_err_reportable C P (max C 16) threshold tailErr cancel
      (data.length + 1) 0 data r hr
  · intro code hC
    obtain ⟨hlog, r, hlast, _, herr, _⟩ :=
      loop_tailErr_run C P (max C 16) threshold (fun _ => false) code hC (fun _ => rfl)
        (data.length + 1) 0 data (Nat.lt_succ_self _)
    exact ⟨hlog, r, hlast, herr⟩

/-- C6 witness: reading `[1, 2]` with chunk size 2 against a stream that
fails with error code 7 after its data: the error is logged once and
attached to the last result; and the first delivered result of that run has
no attached error, consistent with the classification clause. -/
theorem C6_witness :
    ((⟨[1, 2], 2, none⟩ : ChunkResult) ∈
          (readInChunks 2 1 6656 [1, 2] (some 7) (fun _ => false)).results →
        (⟨[1, 2], 2, none⟩ : ChunkResult).err = none ∨
          isErrAndNotEOF (⟨[1, 2], 2, none⟩ : ChunkResult).err = true) ∧
      ((readInChunks 2 1 6656 [1, 2] (some 7) (fun _ => false)).log =
          [some (ReadErr.other 7)] ∧
        ∃ r,
          (readInChunks 2 1 6656 [1, 2] (some 7)
                (fun _ => false)).results.getLast? = some r ∧
            r.err = some (ReadErr.other 7)) :=
  ⟨(C6_error_classification 2 1 6656 [1, 2]).1 (some 7) (fun _ => false) _,
    (C6_error_classification 2 1 6656 [1, 2]).2 7 (by decide)⟩

/-- C7: a reportable read failure after partial data.  When the stream's
length is not a multiple of `C` (so the failing read of an uncancelled run
obtains partial data), the run emits exactly one final result carrying both
the partial data (the tail of the source past the last full chunk, which is
non-empty) and the error; every earlier result carries no error, and the
channel is closed. -/
theorem C7_terminal_error_with_data (C P : Nat) (threshold : Int) (data : List Nat)
    (code : Nat) (hC : 0 < C) (hmod : ¬ C ∣ data.length) :
    ∃ r,
      (readInChunks C P threshold data (some code)
            (fun _ => false)).results.getLast? = some r ∧
        r.data = data.drop (C * (data.length / C)) ∧ r.data ≠ [] ∧
        r.err = some (ReadErr.other code) ∧
        (∀ r2 ∈ (readInChunks C P threshold data (some code)
            (fun _ => false)).results.dropLast, r2.err = none) ∧
        (readInChunks C P threshold data (some code) (fun _ => false)).closed = true := by
  obtain ⟨_, r, hlast, hdata, herr, hprev⟩ :=
    loop_tailErr_run C P (max C 16) threshold (fun _ => false) code hC (fun _ => rfl)
      (data.length + 1) 0 data (Nat.lt_succ_self _)
  refine ⟨r, hlast, hdata, ?_, herr, hprev, ?_⟩
  · rw [hdata]
    intro hnil
    rw [List.drop_eq_nil_iff] at hnil
    have hmodpos : data.length % C ≠ 0 := fun h => hmod (Nat.dvd_iff_mod_eq_zero.mpr h)
    have := Nat.div_add_mod data.length C
    omega
  · rw [readInChunks, readInChunksLoop]
    split_ifs <;> rfl

/-- C7 witness: a 3-byte source with chunk size 2 whose stream then fails
with code 7: the single final result carries the leftover byte `[3]` and the
error, the first result is error-free, and the channel closes. -/
theorem C7_witness :
    0 < 2 ∧ ¬ 2 ∣ ([1, 2, 3] : List Nat).length ∧
      ∃ r,
        (readInChunks 2 1 6656 [1, 2, 3] (some 7)
              (fun _ => false)).results.getLast? = some r ∧
          r.data = ([1, 2, 3] : List Nat).drop (2 * (([1, 2, 3] : List Nat).length / 2)) ∧
          r.data ≠ [] ∧
          r.err = some (ReadErr.other 7) ∧
          (∀ r2 ∈ (readInChunks 2 1 6656 [1, 2, 3] (some 7)
              (fun _ => false)).results.dropLast, r2.err = none) ∧
          (readInChunks 2 1 6656 [1, 2, 3] (some 7) (fun _ => false)).closed = true :=
  ⟨by decide, by decide,
    C7_terminal_error_with_data 2 1 6656 [1, 2, 3] 7 (by decide) (by decide)⟩

/-- C10: an error-only result.  When the stream fails with a reportable
error exactly at a chunk boundary (its length is a multiple of `C`), the
failing read of an uncancelled run obtains zero bytes, and the producer
still emits one final result whose buffer is empty and whose error is the
reportable error, then closes the channel: an error-only result with no
data is a possible output at the public interface. -/
theorem C10_error_only_result (C P : Nat) (threshold : Int) (data : List Nat)
    (code : Nat) (hC : 0 < C) (hdvd : C ∣ data.length) :
    ∃ r,
      (readInChunks C P threshold data (some code)
            (fun _ => false)).results.getLast? = some r ∧
        r.data = [] ∧ r.err = some (ReadErr.other code) ∧
        (readInChunks C P threshold data (some code) (fun _ => false)).closed = true := by
  obtain ⟨_, r, hlast, hdata, herr, _⟩ :=
    loop_tailErr_run C P (max C 16) threshold (fun _ => false) code hC (fun _ => rfl)
      (data.length + 1) 0 data (Nat.lt_succ_self _)
  refine ⟨r, hlast, ?_, herr, ?_⟩
  · rw [hdata, Nat.mul_div_cancel' hdvd, List.drop_length]
  · rw [readInChunks, readInChunksLoop]
    split_ifs <;> rfl

/-- C10 witness: a 2-byte source with chunk size 2 whose stream then fails
with code 7: after the full first chunk, the run emits a final result with
an empty buffer and the error attached, then closes. -/
theorem C10_witness :
    0 < 2 ∧ (2 : Nat) ∣ ([1, 2] : List Nat).length ∧
      ∃ r,
        (readInChunks 2 1 6656 [1, 2] (some 7)
              (fun _ => false)).results.getLast? = some r ∧
          r.data = [] ∧ r.err = some (ReadErr.other 7) ∧
          (readInChunks 2 1 6656 [1, 2] (some 7) (fun _ => false)).closed = true :=
  ⟨by decide, by decide, C10_error_only_result 2 1 6656 [1, 2] 7 (by decide) (by decide)⟩

/- ### C2: the overlap law -/

theorem readFullErr_eq_none_iff (C : Nat) (tailErr : Option Nat) (n : Nat) :
    readFullErr C tailErr n = none ↔ n = C := by
  cases tailErr with
  | none => exact readFullErr_none_eq_none_iff C n
  | some code =>
    unfold readFullErr
    split_ifs with h <;> simp_all

theorem loop_two_results_full_read (C P bufSize : Nat) (threshold : Int)
    (tailErr : Option Nat) (cancel : Nat → Bool) (fuel iter : Nat) (rest : List Nat)
    (h2 : 2 ≤ (readInChunksLoop C P bufSize threshold tailErr cancel fuel iter
      rest).results.length) :
    C ≤ rest.length := by
  cases fuel with
  | zero => simp [readInChunksLoop] at h2
  | succ fuel =>
    rw [readInChunksLoop] at h2
    split_ifs at h2 with h1 hc h3 h4 h5
    · simp at h2
    · simp at h2
    · simp at h2
    · have hfull : min C rest.length = C := (readFullErr_eq_none_iff C tailErr _).mp h5
      omega
    · simp at h2
    · simp at h2

theorem loop_head_take (C P bufSize : Nat) (threshold : Int) (tailErr : Option Nat)
    (cancel : Nat → Bool) (fuel iter : Nat) (rest : List Nat) (hP : P ≤ C)
    (h2 : 2 ≤ (readInChunksLoop C P bufSize threshold tailErr cancel fuel iter
      rest).results.length) :
    ((readInChunksLoop C P bufSize threshold tailErr cancel fuel iter
        rest).results.getD 0 noResult).data.take P = rest.take P := by
  cases fuel with
  | zero => simp [readInChunksLoop] at h2
  | succ fuel =>
    rw [readInChunksLoop] at h2 ⊢
    split_ifs at h2 ⊢ with h1 hc h3 h4 h5
    · simp at h2
    · simp at h2
    · simp at h2
    · have hfull : min C rest.length = C := (readFullErr_eq_none_iff C tailErr _).mp h5
      have hlen : C ≤ rest.length := by omega
      simp only [List.getD_cons_zero]
      rw [chunkAssembly_fst C P bufSize threshold rest h3]
      rw [List.take_append_of_le_length
        (by rw [List.length_take]; omega : P ≤ (rest.take (min C rest.length)).length)]
      rw [List.take_take]
      congr 1
      omega
    · simp at h2
    · simp at h2

theorem loop_overlap (C P bufSize : Nat) (threshold : Int) (tailErr : Option Nat)
    (cancel : Nat → Bool) (hP : P ≤ C) (hbuf : C ≤ bufSize) :
    ∀ fuel iter rest i,
      i + 2 <
        (readInChunksLoop C P bufSize threshold tailErr cancel fuel iter
          rest).results.length →
      ((readInChunksLoop C P bufSize threshold tailErr cancel fuel iter
            rest).results.getD i noResult).data.drop
          (((readInChunksLoop C P bufSize threshold tailErr cancel fuel iter
            rest).results.getD i noResult).data.length - P) =
        ((readInChunksLoop C P bufSize threshold tailErr cancel fuel iter
          rest).results.getD (i + 1) noResult).data.take P := by
  intro fuel
  induction fuel with
  | zero =>
    intro iter rest i hi
    simp [readInChunksLoop] at hi
  | succ fuel ih =>
    intro iter rest i hi
    rw [readInChunksLoop] at hi ⊢
    split_ifs at hi ⊢ with h1 hc h3 h4 h5
    · simp at hi
    · simp at hi
    · simp at hi
    · -- recursive branch
      have hfull : min C rest.length = C := (readFullErr_eq_none_iff C tailErr _).mp h5
      have hlen : C ≤ rest.length := by omega
      simp only [List.length_cons] at hi
      cases i with
      | zero =>
        have h2next : 2 ≤ (readInChunksLoop C P bufSize threshold tailErr cancel fuel
            (iter + 1) (rest.drop (min C rest.length))).results.length := by omega
        have hlen2 : C ≤ (rest.drop (min C rest.length)).length :=
          loop_two_results_full_read C P bufSize threshold tailErr cancel fuel
            (iter + 1) (rest.drop (min C rest.length)) h2next
        rw [List.length_drop, hfull] at hlen2
        have hpl : peekLenOf C P bufSize (min C rest.length) rest.length = P := by
          unfold peekLenOf
          omega
        have htail := loop_head_take C P bufSize threshold tailErr cancel fuel
          (iter + 1) (rest.drop (min C rest.length)) hP h2next
        simp only [List.getD_cons_zero, List.getD_cons_succ]
        rw [chunkAssembly_fst C P bufSize threshold rest h3, hpl, hfull]
        rw [hfull] at htail
        have hlA : (rest.take C).length = C := by rw [List.length_take]; omega
        have hlB : ((rest.drop C).take P).length = P := by
          rw [List.length_take, List.length_drop]
          omega
        rw [List.length_append, hlA, hlB, Nat.add_sub_cancel, List.drop_left' hlA]
        rw [htail]
      | succ j =>
        simp only [List.getD_cons_succ]
        exact ih (iter + 1) (rest.drop (min C rest.length)) j (by omega)
    · simp at hi
    · simp at hi

/-- C2 counterexample: the overlap law fails for a configuration whose peek
size exceeds the chunk size.  With chunk size 2 and peek size 10 over the
8-byte source `0..7`, four chunks are emitted; chunk 1 is not the last, yet
the last 10 bytes of chunk 0 (`[0..8)`, its whole 8-byte buffer) differ from
the first 10 bytes of chunk 1 (`[2..8)`): the peek after the first core read
is cut short by the end of the data, so chunk 0 cannot hold 10 bytes of
lookahead. -/
theorem C2_counterexample :
    (readInChunks 2 10 6656 (List.range 8) none (fun _ => false)).results.length = 4 ∧
      ¬ (((readInChunks 2 10 6656 (List.range 8) none
              (fun _ => false)).results.getD 0 noResult).data.drop
            (((readInChunks 2 10 6656 (List.range 8) none
              (fun _ => false)).results.getD 0 noResult).data.length - 10) =
          ((readInChunks 2 10 6656 (List.range 8) none
            (fun _ => false)).results.getD 1 noResult).data.take 10) := by
  decide

/-- C2 (amended): overlap law, provided the peek size does not exceed the
chunk size (`P ≤ C`).  For any two consecutive emitted chunks `i`, `i + 1`
where chunk `i + 1` is not the last, the last `P` bytes of chunk `i`'s
buffer equal the first `P` bytes of chunk `i + 1`'s buffer — over every
source, epilogue, threshold and cancellation oracle. -/
theorem C2_overlap (C P : Nat) (threshold : Int) (data : List Nat)
    (tailErr : Option Nat) (cancel : Nat → Bool) (i : Nat) (hP : P ≤ C)
    (hi : i + 2 < (readInChunks C P threshold data tailErr cancel).results.length) :
    ((readInChunks C P threshold data tailErr cancel).results.getD i noResult).data.drop
        (((readInChunks C P threshold data tailErr cancel).results.getD i
          noResult).data.length - P) =
      ((readInChunks C P threshold data tailErr cancel).results.getD (i + 1)
        noResult).data.take P :=
  loop_overlap C P (max C 16) threshold tailErr cancel hP (le_max_left C 16)
    (data.length + 1) 0 data i hi

/-- C2 witness: the spec's worked example (chunk size 10, peek size 3,
26-byte source): chunk 1 is not last, the last 3 bytes of chunk 0 and the
first 3 bytes of chunk 1 are both `[10, 11, 12]`. -/
theorem C2_witness :
    3 ≤ 10 ∧
      0 + 2 <
        (readInChunks 10 3 6656 (List.range 26) none (fun _ => false)).results.length ∧
      ((readInChunks 10 3 6656 (List.range 26) none
            (fun _ => false)).results.getD 0 noResult).data.drop
          (((readInChunks 10 3 6656 (List.range 26) none
            (fun _ => false)).results.getD 0 noResult).data.length - 3) =
        ((readInChunks 10 3 6656 (List.range 26) none
          (fun _ => false)).results.getD (0 + 1) noResult).data.take 3 :=
  ⟨by decide, by decide,
    C2_overlap 10 3 6656 (List.range 26) none (fun _ => false) 0 (by decide) (by decide)⟩

/-- C8 witness: with the context already cancelled (the oracle observes
cancellation at every checkpoint), the run over `[1, 2, 3]` delivers
nothing and closes the channel. -/
theorem C8_witness :
    (readInChunks 2 1 6656 [1, 2, 3] none (fun _ => true)).results = [] ∧
      (readInChunks 2 1 6656 [1, 2, 3] none (fun _ => true)).closed = true :=
  ⟨(C8_cancellation 2 1 6656 [1, 2, 3] none (fun _ => true)).1 rfl,
    (C8_cancellation 2 1 6656 [1, 2, 3] none (fun _ => true)).2.2⟩

end Chunker
